import Mathlib

/-!
Verification of the prestogres PL/Python module (`pgsql/prestogres.py`).

The development shallowly embeds the module's pure computations (type
mapping, column-name deduplication, batch planning, schema-cache state,
catalog-statement planning) as executable Lean definitions, and models the
effectful orchestrator `run_system_catalog_as_temp_table` as an explicit
state-passing function parametrised by oracles for the external PostgreSQL
and Presto collaborators.  Statements issued to PostgreSQL are represented
structurally (one constructor per format string of the source) rather than
as SQL text.
-/

namespace Prestogres

abbrev Name := String

/-- Maximum identifier length (`PG_NAMEDATALEN` in pg_config_manual.h). -/
def PG_NAMEDATALEN : Nat := 64

/-- `_pg_result_type`: convert a Presto query-result field type to a
PostgreSQL type. -/
def _pg_result_type (presto_type : Name) : Name :=
  if presto_type = "varchar" then "varchar(255)"
  else if presto_type = "varbinary" then "bytea"
  else if presto_type = "double" then "double precision"
  else presto_type

/-- `_pg_table_type`: convert a Presto table column type to a PostgreSQL
type. -/
def _pg_table_type (presto_type : Name) : Name :=
  if presto_type = "varchar" then "varchar(255)"
  else if presto_type = "varbinary" then "bytea"
  else if presto_type = "double" then "double precision"
  else presto_type

/-- The `while name in used_names: name += "_"` loop of
`_rename_duplicated_column_names`: append underscore characters until the
name avoids every name used so far. -/
def freshName (used : List Name) (name : Name) : Name :=
  if name ∈ used then freshName used (name ++ "_") else name
termination_by (used.filter (fun u => name.length ≤ u.length)).length
decreasing_by
  rename_i hmem
  have hlen : (name ++ "_").length = name.length + 1 := by
    rw [String.length_append]
    rfl
  rw [hlen]
  have hsub : used.filter (fun u => name.length + 1 ≤ u.length)
      = (used.filter (fun u => name.length ≤ u.length)).filter
          (fun u => name.length + 1 ≤ u.length) := by
    rw [List.filter_filter]
    apply List.filter_congr
    intro u _
    by_cases h : name.length + 1 ≤ u.length
    · simp [h, Nat.le_of_succ_le h]
    · simp [h]
  rw [hsub]
  apply List.length_filter_lt_length_iff_exists.2
  refine ⟨name, ?_, by simp⟩
  simp [List.mem_filter, hmem]

/-- The body of `_rename_duplicated_column_names`: thread the
`used_names` set (modelled as the list of names chosen so far) through the
input. -/
def renameLoop (used : List Name) : List Name → List Name
  | [] => []
  | original_name :: rest =>
    let name := freshName used original_name
    name :: renameLoop (used ++ [name]) rest

/-- `_rename_duplicated_column_names`: queries can include the same column
name twice but tables cannot, so later duplicates grow underscores. -/
def _rename_duplicated_column_names (column_names : List Name) : List Name :=
  renameLoop [] column_names

/-- One execution performed by `_batch_insert`: the size the prepared
statement was planned for, together with the rows bound to it. -/
abbrev BatchExec (α : Type) := Nat × List α

/-- The accumulation loop of `_batch_insert`: collect rows into `batch`,
flush whenever `len(batch) >= batch_size`, and flush a final partial batch
after the source is exhausted.  Each flush records the planned statement
size (`len(batch)` at planning time) and the rows executed. -/
def batchLoop (batch_size : Nat) : List α → List α → List (BatchExec α)
  | [], batch => if batch.isEmpty then [] else [(batch.length, batch)]
  | row :: rest, batch =>
    let batch2 := batch ++ [row]
    if batch_size ≤ batch2.length then
      (batch2.length, batch2) :: batchLoop batch_size rest []
    else
      batchLoop batch_size rest batch2

/-- `_batch_insert`: the sequence of prepared-statement executions the
loader performs on a finite row source. -/
def _batch_insert (batch_size : Nat) (rows : List α) : List (BatchExec α) :=
  batchLoop batch_size rows []

/-- The `Column` namedtuple. -/
structure Column where
  name : Name
  type : Name
  nullable : Bool
deriving DecidableEq, Repr

/-- One row of the remote `information_schema.columns` discovery query:
`(table_schema, table_name, column_name, is_nullable, data_type)`. -/
structure DiscRow where
  table_schema : Name
  table_name : Name
  column_name : Name
  is_nullable : Bool
  data_type : Name
deriving DecidableEq, Repr

/-- Result values are opaque to the module; we model them as strings. -/
abbrev Value := String

/-- The `QueryResult` namedtuple. -/
structure QueryResult where
  column_names : List Name
  column_types : List Name
  result : List (List Value)
deriving DecidableEq, Repr

/-- A statement issued to PostgreSQL by the catalog-mirroring planner,
represented structurally: one constructor per format string of the
source. -/
inductive Stmt where
  /-- `do $$ ... create role <login_user> with login ... $$` -/
  | createRoleIfAbsent (login_user : Name)
  /-- `grant select on all tables in schema prestogres_catalog to <u>` -/
  | grantSelectAll (login_user : Name)
  /-- `alter table prestogres_catalog.table_holder_<id> set schema <s>` -/
  | setSchemaHolder (table_holder_id : Nat) (schema_name : Name)
  /-- `alter table <s>.table_holder_<id> rename to <t>` -/
  | renameHolder (schema_name : Name) (table_holder_id : Nat) (table_name : Name)
  /-- `alter table <s>.<t> add <col> <type> [not null], ...` with one
  `(name, type, not_null)` triple per added column. -/
  | alterAddColumns (schema_name : Name) (table_name : Name)
      (cols : List (Name × Name × Bool))
deriving DecidableEq, Repr

/-- A `plpy.warning` diagnostic emitted during catalog discovery. -/
inductive Diag where
  | schemaTooLong (schema_name : Name)
  | tableTooLong (schema_name table_name : Name)
  | columnTooLong (schema_name table_name column_name : Name)
deriving DecidableEq, Repr

/-- `tables = schemas.setdefault(key, default)`: insertion-ordered
association list; insert the default when the key is absent. -/
def ensureKey (key : Name) (default : β) (l : List (Name × β)) : List (Name × β) :=
  if l.any (fun p => p.1 = key) then l else l ++ [(key, default)]

/-- Mutate the value stored under an existing key in place. -/
def updateKey (key : Name) (f : β → β) (l : List (Name × β)) : List (Name × β) :=
  l.map fun p => if p.1 = key then (p.1, f p.2) else p

abbrev Tables := List (Name × List Column)
abbrev Schemas := List (Name × Tables)

/-- Process one discovery row of the `for row in rows` loop
(lines 282-309): names longer than `PG_NAMEDATALEN - 1` are skipped with a
warning, everything else is grouped into the schema → table → column
structure. -/
def buildStep (acc : Schemas × List Diag) (row : DiscRow) : Schemas × List Diag :=
  let (schemas, diags) := acc
  if PG_NAMEDATALEN - 1 < row.table_schema.length then
    (schemas, diags ++ [Diag.schemaTooLong row.table_schema])
  else
    let schemas := ensureKey row.table_schema [] schemas
    if PG_NAMEDATALEN - 1 < row.table_name.length then
      (schemas, diags ++ [Diag.tableTooLong row.table_schema row.table_name])
    else
      let schemas := updateKey row.table_schema
        (ensureKey row.table_name []) schemas
      if PG_NAMEDATALEN - 1 < row.column_name.length then
        (schemas, diags ++ [Diag.columnTooLong row.table_schema row.table_name
          row.column_name])
      else
        (updateKey row.table_schema
          (updateKey row.table_name
            (fun cols => cols ++
              [⟨row.column_name, row.data_type, row.is_nullable⟩]))
          schemas, diags)

/-- Group all discovery rows (the whole `for row in rows` loop). -/
def buildSchemas (rows : List DiscRow) : Schemas × List Diag :=
  rows.foldl buildStep ([], [])

/-- `sorted(d.items(), key=lambda (k,v): k)`. -/
def sortKeys (l : List (Name × β)) : List (Name × β) :=
  l.insertionSort (fun a b => a.1 ≤ b.1)

/-- The inner `for table_name, columns in sorted(tables.items(), ...)`
loop (lines 333-353): per table, move the table holder into the schema,
rename it, and add the real columns. -/
def planTables (schema_name : Name) : Nat → Tables → List Stmt
  | _, [] => []
  | table_holder_id, (table_name, columns) :: rest =>
    Stmt.setSchemaHolder table_holder_id schema_name ::
    Stmt.renameHolder schema_name table_holder_id table_name ::
    Stmt.alterAddColumns schema_name table_name
      (columns.map fun c => (c.name, _pg_table_type c.type, !c.nullable)) ::
    planTables schema_name (table_holder_id + 1) rest

/-- The outer `for schema_name, tables in sorted(schemas.items(), ...)`
loop (lines 326-353), applied to the already-sorted item list: system
schemas are skipped; `table_holder_id` counts consecutively across
schemas. -/
def planSchemas : Nat → Schemas → List Name × List Stmt
  | _, [] => ([], [])
  | table_holder_id, (schema_name, tables) :: rest =>
    if schema_name = "sys" ∨ schema_name = "information_schema" then
      planSchemas table_holder_id rest
    else
      let ts := sortKeys tables
      let stmts := planTables schema_name table_holder_id ts
      let pr := planSchemas (table_holder_id + ts.length) rest
      (schema_name :: pr.1, stmts ++ pr.2)

/-- The two statements pushed before the mirroring loop (lines 316-322):
role provisioning and the grant on all table holders. -/
def accessStmts (login_user : Name) : List Stmt :=
  [Stmt.createRoleIfAbsent login_user, Stmt.grantSelectAll login_user]

/-- Full statement planning of a cache miss (lines 311-353). -/
def planAll (login_user : Name) (schemas : Schemas) : List Name × List Stmt :=
  let p := planSchemas 0 (sortKeys schemas)
  (p.1, accessStmts login_user ++ p.2)

/-- Declarative counterpart of the planner's enumeration: the non-system
schemas in sorted order and, within each, the tables in sorted order. -/
def mirrorEntries (schemas : Schemas) : List (Name × Name × List Column) :=
  ((sortKeys schemas).filter
      (fun p => !(p.1 == "sys" || p.1 == "information_schema"))).flatMap
    fun p => (sortKeys p.2).map fun q => (p.1, q.1, q.2)

/-- Declarative statement triple for the table entry at holder index
`table_holder_id`. -/
def tableStmts (table_holder_id : Nat) (e : Name × Name × List Column) : List Stmt :=
  [ Stmt.setSchemaHolder table_holder_id e.1,
    Stmt.renameHolder e.1 table_holder_id e.2.1,
    Stmt.alterAddColumns e.1 e.2.1
      (e.2.2.map fun c => (c.name, _pg_table_type c.type, !c.nullable)) ]

/-- The process-wide `SchemaCache` object.  Fields start as Python `None`
(`Option.none` here); the nested query cache is a dict from query text to
`QueryResult`, modelled as an association list. -/
structure SchemaCache where
  server : Option Name := none
  user : Option Name := none
  catalog : Option Name := none
  schema : Option Name := none
  schema_names : Option (List Name) := none
  stmts : Option (List Stmt) := none
  expire_time : Option Nat := none
  query_cache : List (String × QueryResult) := []
deriving DecidableEq, Repr

/-- Python 2 comparison `current_time < self.expire_time`: `None` is
smaller than every number, so the comparison is false while the cache is
unpopulated. -/
def ltExpire (current_time : Nat) : Option Nat → Bool
  | none => false
  | some t => current_time < t

/-- `SchemaCache.is_cached`. -/
def SchemaCache.is_cached (self : SchemaCache)
    (server user catalog schema : Name) (current_time : Nat) : Bool :=
  self.server == some server && self.user == some user &&
  self.catalog == some catalog && self.schema == some schema &&
  self.stmts.isSome && ltExpire current_time self.expire_time

/-- `SchemaCache.set_cache`: replace every field and clear the nested
query cache. -/
def SchemaCache.set_cache (_self : SchemaCache)
    (server user catalog schema : Name) (schema_names : List Name)
    (stmts : List Stmt) (expire_time : Nat) : SchemaCache :=
  { server := some server, user := some user, catalog := some catalog,
    schema := some schema, schema_names := some schema_names,
    stmts := some stmts, expire_time := some expire_time,
    query_cache := [] }

/-- The schema-override logic at the head of `run_presto_as_temp_table`
(lines 219-222): when `search_path` was changed explicitly, its first
schema replaces the caller's `schema` argument before the Presto client is
built. -/
def run_presto_as_temp_table_schema (search_path : List Name) (schema : Name) : Name :=
  if search_path ≠ ["$user", "public"] ∧ 0 < search_path.length then
    search_path.headD schema
  else
    schema

/-- Errors raised while running the mirroring protocol: either an
exception raised by an external collaborator (PostgreSQL SPI or the Presto
client), carried verbatim, or the Python `NameError` raised at line 405
when the local variable `schema_name` was never bound. -/
inductive RunErr (ε : Type) where
  | oracle (e : ε)
  | unboundSchemaName
deriving DecidableEq, Repr

/-- Oracles for the external collaborators touched by
`run_system_catalog_as_temp_table`.  `σ` is the outer session's catalog
state (schemas, tables, current role, the `pg_database` row); `ε` is the
collaborators' exception type.  A failing oracle leaves the catalog state
unchanged (PL/Python rolls back the failed statement's own
subtransaction) and raises `ε`. -/
structure Ops (σ ε : Type) where
  /-- `client.run(sql)` for the discovery query; `None` is possible. -/
  discover : Except ε (Option (List DiscRow))
  /-- the drop-stale-schemas cursor loop (lines 373-378) -/
  dropStaleSchemas : σ → Except ε σ
  /-- `alter schema prestogres_catalog_schema_holder_<id> rename to <n>` -/
  renameSchemaHolder : σ → Nat → Name → Except ε σ
  /-- `plpy.execute(statement)` for one planned statement (line 393) -/
  execStmt : σ → Stmt → Except ε σ
  /-- `drop schema prestogres_catalog cascade` (line 396) -/
  dropCatalogSchema : σ → Except ε σ
  /-- the drop-schema-holders cursor loop (lines 399-402) -/
  dropSchemaHolders : σ → Except ε σ
  /-- `update pg_database set datname=<schema_name> ...` (line 405) -/
  updatePgDatabase : σ → Name → Except ε σ
  /-- `set role to <login_user>` (line 409) -/
  setRole : σ → Name → Except ε σ
  /-- running the caller's query and capturing its result (lines 412-419) -/
  runQuery : σ → String → Except ε QueryResult

/-- The schema-holder rename loop (lines 381-389): a failed rename is
swallowed by the bare `except: pass` and, because the increment sits after
the `plpy.execute` inside the `try`, the holder id is reused for the next
schema name. -/
def renameHolders (ops : Ops σ ε) : List Name → Nat → σ → σ
  | [], _, s => s
  | n :: rest, schema_holder_id, s =>
    match ops.renameSchemaHolder s schema_holder_id n with
    | .ok s2 => renameHolders ops rest (schema_holder_id + 1) s2
    | .error _ => renameHolders ops rest schema_holder_id s

/-- The `for statement in statements` loop (lines 392-393); the first
failure aborts the loop and is reported together with the state reached. -/
def execStmts (ops : Ops σ ε) : List Stmt → σ → σ × Option ε
  | [], s => (s, none)
  | st :: rest, s =>
    match ops.execStmt s st with
    | .ok s2 => execStmts ops rest s2
    | .error e => (s, some e)

/-- Body of the `try` block inside the subtransaction (lines 370-422),
returning the catalog state reached together with the captured query
result or the propagated error.  `lastSchemaName` is the value of the
Python local `schema_name` when line 405 runs: the loop at line 382
rebinds it when `schema_names` is non-empty, otherwise whatever earlier
binding (line 283 or 326) is still in scope — `none` means the variable
is unbound and line 405 raises `NameError`. -/
def innerBlock (ops : Ops σ ε) (schema_names : List Name) (stmts : List Stmt)
    (lastSchemaName : Option Name) (login_user : Name) (query : String)
    (s : σ) : σ × Except (RunErr ε) QueryResult :=
  match ops.dropStaleSchemas s with
  | .error e => (s, .error (.oracle e))
  | .ok s1 =>
    let s2 := renameHolders ops schema_names 0 s1
    match execStmts ops stmts s2 with
    | (s3, some e) => (s3, .error (.oracle e))
    | (s3, none) =>
      match ops.dropCatalogSchema s3 with
      | .error e => (s3, .error (.oracle e))
      | .ok s4 =>
        match ops.dropSchemaHolders s4 with
        | .error e => (s4, .error (.oracle e))
        | .ok s5 =>
          match (if schema_names.isEmpty then lastSchemaName
                 else schema_names.getLast?) with
          | none => (s5, .error .unboundSchemaName)
          | some sn =>
            match ops.updatePgDatabase s5 sn with
            | .error e => (s5, .error (.oracle e))
            | .ok s6 =>
              match ops.setRole s6 login_user with
              | .error e => (s6, .error (.oracle e))
              | .ok s7 =>
                match ops.runQuery s7 query with
                | .error e => (s7, .error (.oracle e))
                | .ok qr => (s7, .ok qr)

/-- `subxact.exit(exc, value, traceback)`: a non-`None` first argument
requests a rollback, restoring the state saved at `subxact.enter()`; all
`None` would commit, keeping the current state.  The source always passes
`"rollback subtransaction"`. -/
def subxactExit (excInfo : Option String) (saved current : σ) : σ :=
  match excInfo with
  | some _ => saved
  | none => current

/-- What the final materialization step (lines 428-435) computes from the
query result: the deduplicated column names and the batch-insert
executions with batch size 10. -/
structure MatOut where
  column_names : List Name
  batches : List (BatchExec (List Value))
deriving Repr

/-- Materialization of a query result into the temporary result table. -/
def materializeOut (qr : QueryResult) : MatOut :=
  { column_names := _rename_duplicated_column_names qr.column_names,
    batches := _batch_insert 10 qr.result }

/-- The observable outcome of one `run_system_catalog_as_temp_table`
call: the process-wide cache afterwards, the outer session's catalog
state afterwards, whether the nested transaction scope was entered, the
discovery diagnostics emitted, and the propagated result. -/
structure RunOut (σ ε : Type) where
  cache : SchemaCache
  cat : σ
  mirroringRan : Bool
  diags : List Diag
  result : Except (RunErr ε) QueryResult
  mat : Option MatOut

/-- Lines 359-435: query-cache lookup, the subtransaction scope on a
miss, the query-cache store, and materialization.  `sharedQC` records
whether the local `query_cache` variable aliases
`SchemaCacheEntry.query_cache` (the cache-hit branch, line 269) or is the
fresh dict bound at line 357 after `set_cache`, whose contents are
discarded when the call returns. -/
def runStep2 (ops : Ops σ ε) (stBase : SchemaCache) (sharedQC : Bool)
    (qc : List (String × QueryResult)) (schema_names : List Name)
    (stmts : List Stmt) (lastSchemaName : Option Name) (login_user : Name)
    (query : String) (diags : List Diag) (cat : σ) : RunOut σ ε :=
  match qc.lookup query with
  | some qr =>
    { cache := stBase, cat := cat, mirroringRan := false, diags := diags,
      result := .ok qr, mat := some (materializeOut qr) }
  | none =>
    let saved := cat
    let ir := innerBlock ops schema_names stmts lastSchemaName login_user query cat
    let cat2 := subxactExit (some "rollback subtransaction") saved ir.1
    match ir.2 with
    | .ok qr =>
      let st2 := if sharedQC then
          { stBase with query_cache := stBase.query_cache ++ [(query, qr)] }
        else stBase
      { cache := st2, cat := cat2, mirroringRan := true, diags := diags,
        result := .ok qr, mat := some (materializeOut qr) }
    | .error e =>
      { cache := stBase, cat := cat2, mirroringRan := true, diags := diags,
        result := .error e, mat := none }

/-- `run_system_catalog_as_temp_table` (lines 261-440), as a state
transformer on the process-wide `SchemaCache` and the session catalog
state `σ`, with external effects supplied by `ops`. -/
def run_system_catalog_as_temp_table (ops : Ops σ ε) (st : SchemaCache)
    (now : Nat) (server user catalog schema login_user : Name)
    (query : String) (cat : σ) : RunOut σ ε :=
  if st.is_cached server user catalog schema now then
    runStep2 ops st true st.query_cache (st.schema_names.getD [])
      (st.stmts.getD []) none login_user query [] cat
  else
    match ops.discover with
    | .error e =>
      { cache := st, cat := cat, mirroringRan := false, diags := [],
        result := .error (.oracle e), mat := none }
    | .ok rowsOpt =>
      let rows := rowsOpt.getD []
      let bs := buildSchemas rows
      let schemas := bs.1
      let diags := bs.2
      let plan := planSchemas 0 (sortKeys schemas)
      let schema_names := plan.1
      let stmts := accessStmts login_user ++ plan.2
      let st2 := st.set_cache server user catalog schema schema_names stmts
        (now + 60)
      -- value of the Python local `schema_name` before line 382: bound by
      -- line 283 for every row, then by line 326 for every sorted item
      let lb0 := (rows.getLast?).map DiscRow.table_schema
      let lb1 := match (sortKeys schemas).getLast? with
        | some p => some p.1
        | none => lb0
      runStep2 ops st2 false [] schema_names stmts lb1 login_user query
        diags cat

/-! ## Theorems -/

/-- C8: the result-context and table-context type mappers apply the same
total substitution — `varchar ↦ varchar(255)`, `varbinary ↦ bytea`,
`double ↦ double precision`, every other type name unchanged — and being
Lean functions they are pure, returning one identical output on every
call. -/
theorem type_mappers_agree (t : Name) :
    _pg_result_type t = _pg_table_type t ∧
    _pg_result_type "varchar" = "varchar(255)" ∧
    _pg_result_type "varbinary" = "bytea" ∧
    _pg_result_type "double" = "double precision" ∧
    (t ≠ "varchar" → t ≠ "varbinary" → t ≠ "double" → _pg_result_type t = t) := by
  refine ⟨rfl, rfl, rfl, rfl, ?_⟩
  intro h1 h2 h3
  simp [_pg_result_type, h1, h2, h3]

/-- Witness for `type_mappers_agree` at the concrete type name
`"bigint"`. -/
theorem type_mappers_agree_witness :
    _pg_result_type "bigint" = _pg_table_type "bigint" ∧
    _pg_result_type "bigint" = "bigint" := by
  have h := type_mappers_agree "bigint"
  exact ⟨h.1, h.2.2.2.2 (by decide) (by decide) (by decide)⟩

/-- C10: in `run_presto_as_temp_table`, when the session `search_path` is
non-empty and differs from `['$user', 'public']`, the caller's `schema`
argument is replaced by the first schema of the search path; otherwise it
is used unchanged. -/
theorem search_path_override (search_path : List Name) (schema : Name) :
    (∀ x xs, search_path = x :: xs → search_path ≠ ["$user", "public"] →
      run_presto_as_temp_table_schema search_path schema = x) ∧
    ((search_path = ["$user", "public"] ∨ search_path = []) →
      run_presto_as_temp_table_schema search_path schema = schema) := by
  constructor
  · intro x xs hx hne
    subst hx
    simp [run_presto_as_temp_table_schema, hne]
  · rintro (h | h) <;> subst h <;> simp [run_presto_as_temp_table_schema]

/-- Witness for `search_path_override` at concrete search paths. -/
theorem search_path_override_witness :
    run_presto_as_temp_table_schema ["other", "public"] "s" = "other" ∧
    run_presto_as_temp_table_schema ["$user", "public"] "s" = "s" ∧
    run_presto_as_temp_table_schema [] "s" = "s" := by
  refine ⟨?_, ?_, ?_⟩
  · exact (search_path_override ["other", "public"] "s").1 "other" ["public"]
      rfl (by decide)
  · exact (search_path_override ["$user", "public"] "s").2 (Or.inl rfl)
  · exact (search_path_override [] "s").2 (Or.inr rfl)

/-- States of the process-wide cache reachable from `SchemaCache.__init__`
and `set_cache`: a populated statement list always comes with an expiry
time. -/
def SchemaCache.WF (st : SchemaCache) : Prop :=
  st.stmts = none → st.expire_time = none

/-- `runStep2` never changes the outer catalog state: on a query-cache hit
the scope is not entered, and on a miss the scope is exited with a
rollback restoring the saved state. -/
theorem runStep2_cat (ops : Ops σ ε) (stBase : SchemaCache) (sharedQC : Bool)
    (qc : List (String × QueryResult)) (schema_names : List Name)
    (stmts : List Stmt) (lastSchemaName : Option Name) (login_user : Name)
    (query : String) (diags : List Diag) (cat : σ) :
    (runStep2 ops stBase sharedQC qc schema_names stmts lastSchemaName
      login_user query diags cat).cat = cat := by
  unfold runStep2
  cases qc.lookup query with
  | some qr => rfl
  | none =>
    dsimp only
    cases (innerBlock ops schema_names stmts lastSchemaName login_user
        query cat).2 with
    | ok qr => rfl
    | error e => rfl

/-- The miss branch of `runStep2` leaves the base cache untouched when the
local query-cache dict is not the shared one. -/
theorem runStep2_cache_unshared (ops : Ops σ ε) (stBase : SchemaCache)
    (qc : List (String × QueryResult)) (schema_names : List Name)
    (stmts : List Stmt) (lastSchemaName : Option Name) (login_user : Name)
    (query : String) (diags : List Diag) (cat : σ) :
    (runStep2 ops stBase false qc schema_names stmts lastSchemaName
      login_user query diags cat).cache = stBase := by
  unfold runStep2
  cases qc.lookup query with
  | some qr => rfl
  | none =>
    dsimp only
    cases (innerBlock ops schema_names stmts lastSchemaName login_user
        query cat).2 with
    | ok qr => rfl
    | error e => rfl

/-- The whole orchestrator call leaves the outer catalog state exactly as
it found it. -/
theorem run_cat_eq (ops : Ops σ ε) (st : SchemaCache) (now : Nat)
    (server user catalog schema login_user : Name) (query : String) (cat : σ) :
    (run_system_catalog_as_temp_table ops st now server user catalog schema
      login_user query cat).cat = cat := by
  unfold run_system_catalog_as_temp_table
  split
  · exact runStep2_cat ..
  · cases ops.discover with
    | error e => rfl
    | ok rowsOpt => exact runStep2_cat ..

/-- C1: every call to `run_system_catalog_as_temp_table` that enters the
nested transaction scope exits it with a rollback on every path, so the
outer session's catalog state after the call equals the state before it
— for any oracle behaviour, succeeding or failing. -/
theorem rollback_invariant (ops : Ops σ ε) (st : SchemaCache) (now : Nat)
    (server user catalog schema login_user : Name) (query : String) (cat : σ)
    (_hmirror : (run_system_catalog_as_temp_table ops st now server user
      catalog schema login_user query cat).mirroringRan = true) :
    (run_system_catalog_as_temp_table ops st now server user catalog schema
      login_user query cat).cat = cat :=
  run_cat_eq ..

/-- C7: `is_cached` holds exactly when the cached key matches and the
current time is strictly before the stored expiry (in particular it turns
false the moment the TTL elapses), and `set_cache` replaces every field,
clears the nested query cache, and — at its only call site in the
orchestrator — stamps the expiry `now + 60`. -/
theorem schema_cache_validity :
    (∀ (st : SchemaCache) (server user catalog schema : Name) (now : Nat),
      st.WF →
      (st.is_cached server user catalog schema now = true ↔
        (st.server = some server ∧ st.user = some user ∧
         st.catalog = some catalog ∧ st.schema = some schema ∧
         ∃ e, st.expire_time = some e ∧ now < e))) ∧
    (∀ (st : SchemaCache) (server user catalog schema : Name) (now e : Nat),
      st.expire_time = some e → e ≤ now →
      st.is_cached server user catalog schema now = false) ∧
    (∀ (st : SchemaCache) (server user catalog schema : Name)
      (schema_names : List Name) (stmts : List Stmt) (expire_time : Nat),
      st.set_cache server user catalog schema schema_names stmts expire_time =
        { server := some server, user := some user, catalog := some catalog,
          schema := some schema, schema_names := some schema_names,
          stmts := some stmts, expire_time := some expire_time,
          query_cache := [] }) ∧
    (∀ {σ ε : Type} (ops : Ops σ ε) (st : SchemaCache) (now : Nat)
      (server user catalog schema login_user : Name) (query : String) (cat : σ)
      (rowsOpt : Option (List DiscRow)),
      st.is_cached server user catalog schema now = false →
      ops.discover = .ok rowsOpt →
      (run_system_catalog_as_temp_table ops st now server user catalog schema
        login_user query cat).cache.expire_time = some (now + 60)) := by
  refine ⟨?_, ?_, fun _ _ _ _ _ _ _ _ => rfl, ?_⟩
  · intro st server user catalog schema now hwf
    cases hexp : st.expire_time with
    | none =>
      simp [SchemaCache.is_cached, ltExpire, hexp]
    | some e =>
      have hst : st.stmts.isSome := by
        cases h : st.stmts with
        | none => rw [hwf h] at hexp; cases hexp
        | some l => rfl
      simp [SchemaCache.is_cached, ltExpire, hexp, hst, and_assoc]
  · intro st server user catalog schema now e hexp hle
    simp [SchemaCache.is_cached, ltExpire, hexp, Nat.not_lt.2 hle]
  · intro σ ε ops st now server user catalog schema login_user query cat
      rowsOpt hic hdis
    unfold run_system_catalog_as_temp_table
    rw [if_neg (by simp [hic]), hdis]
    rw [runStep2_cache_unshared]
    rfl

/-- Concatenating the executed batches recovers the buffered prefix and
the remaining row source, in order. -/
theorem batchLoop_flatten (B : Nat) (rs : List α) :
    ∀ batch : List α, batch.length < B →
    ((batchLoop B rs batch).map Prod.snd).flatten = batch ++ rs := by
  induction rs with
  | nil =>
    intro batch _
    by_cases hb : batch.isEmpty
    · rw [List.isEmpty_iff.1 hb]
      simp [batchLoop]
    · simp [batchLoop, hb]
  | cons r rest ih =>
    intro batch h
    simp only [batchLoop]
    by_cases hc : B ≤ (batch ++ [r]).length
    · rw [if_pos hc]
      simp only [List.map_cons, List.flatten_cons]
      rw [ih [] (by simpa using Nat.lt_of_le_of_lt (Nat.zero_le _) h)]
      simp
    · rw [if_neg hc]
      rw [ih (batch ++ [r]) (by simpa using Nat.lt_of_not_le hc)]
      simp

/-- The number of executions is the ceiling of the total row count over
the batch size. -/
theorem batchLoop_length (B : Nat) (rs : List α) :
    ∀ batch : List α, batch.length < B →
    (batchLoop B rs batch).length = (batch.length + rs.length + B - 1) / B := by
  induction rs with
  | nil =>
    intro batch h
    have hB : 0 < B := Nat.lt_of_le_of_lt (Nat.zero_le _) h
    by_cases hb : batch.isEmpty
    · rw [List.isEmpty_iff.1 hb]
      simp only [batchLoop, List.isEmpty_nil, if_true, List.length_nil]
      rw [eq_comm]
      exact Nat.div_eq_of_lt (by omega)
    · have hbne : batch ≠ [] := fun he => hb (by rw [he]; rfl)
      have hb1 : 0 < batch.length := List.length_pos.2 hbne
      unfold batchLoop
      rw [if_neg hb]
      simp only [List.length_cons, List.length_nil]
      rw [eq_comm]
      exact Nat.div_eq_of_lt_le (by omega) (by omega)
  | cons r rest ih =>
    intro batch h
    simp only [batchLoop]
    by_cases hc : B ≤ (batch ++ [r]).length
    · rw [if_pos hc]
      have hBeq : batch.length + 1 = B := by
        simp only [List.length_append, List.length_cons, List.length_nil] at hc
        omega
      simp only [List.length_cons]
      rw [ih [] (by simp only [List.length_nil]; omega)]
      have he : batch.length + (rest.length + 1) + B - 1
          = ([] : List α).length + rest.length + B - 1 + B := by
        simp only [List.length_nil]
        omega
      rw [he, Nat.add_div_right _ (by omega : 0 < B)]
    · rw [if_neg hc]
      rw [ih (batch ++ [r]) (Nat.lt_of_not_le hc)]
      simp only [List.length_append, List.length_cons, List.length_nil]
      congr 1
      omega

/-- Every prepared statement is planned for exactly the rows it executes
(never padded). -/
theorem batchLoop_sizes (B : Nat) (rs : List α) :
    ∀ batch : List α, ∀ p ∈ batchLoop B rs batch, p.1 = p.2.length := by
  induction rs with
  | nil =>
    intro batch p hp
    unfold batchLoop at hp
    split at hp
    · cases hp
    · rcases List.mem_singleton.1 hp with rfl
      rfl
  | cons r rest ih =>
    intro batch p hp
    simp only [batchLoop] at hp
    split at hp
    · rcases List.mem_cons.1 hp with rfl | hp2
      · rfl
      · exact ih [] p hp2
    · exact ih (batch ++ [r]) p hp

/-- The loop always produces at least one execution when it has seen any
row. -/
theorem batchLoop_ne_nil (B : Nat) (rs : List α) :
    ∀ batch : List α, batch ≠ [] ∨ rs ≠ [] → batchLoop B rs batch ≠ [] := by
  induction rs with
  | nil =>
    intro batch h
    have hb : batch ≠ [] := by tauto
    simp [batchLoop, List.isEmpty_iff, hb]
  | cons r rest ih =>
    intro batch _
    simp only [batchLoop]
    split
    · simp
    · exact ih (batch ++ [r]) (Or.inl (by simp))

/-- When the total row count is not a multiple of the batch size, the
final execution is planned for exactly the remainder. -/
theorem batchLoop_last (B : Nat) (rs : List α) :
    ∀ batch : List α, batch.length < B →
    (batch.length + rs.length) % B ≠ 0 →
    ((batchLoop B rs batch).getLast?).map Prod.fst
      = some ((batch.length + rs.length) % B) := by
  induction rs with
  | nil =>
    intro batch h hmod
    have hb : batch ≠ [] := by
      intro he
      rw [he] at hmod
      simp at hmod
    simp [batchLoop, List.isEmpty_iff, hb, Nat.mod_eq_of_lt h]
  | cons r rest ih =>
    intro batch h hmod
    simp only [batchLoop]
    by_cases hc : B ≤ (batch ++ [r]).length
    · rw [if_pos hc]
      have hBeq : batch.length + 1 = B := by
        simp only [List.length_append, List.length_cons, List.length_nil] at hc
        omega
      have htot : (batch.length + (rest.length + 1)) % B = rest.length % B := by
        rw [show batch.length + (rest.length + 1) = rest.length + B by omega,
          Nat.add_mod_right]
      have hmod2 : rest.length % B ≠ 0 := by
        simp only [List.length_cons] at hmod
        rw [htot] at hmod
        exact hmod
      have hrest : rest ≠ [] := by
        intro he
        rw [he] at hmod2
        simp at hmod2
      have hne := batchLoop_ne_nil B rest [] (Or.inr hrest)
      cases htl : batchLoop B rest [] with
      | nil => exact absurd htl hne
      | cons b t =>
        rw [List.getLast?_cons_cons]
        have hrec := ih [] (by simp only [List.length_nil]; omega)
          (by simp only [List.length_nil, Nat.zero_add]; exact hmod2)
        rw [htl] at hrec
        simp only [List.length_nil, Nat.zero_add] at hrec
        simp only [List.length_cons, htot]
        exact hrec
    · rw [if_neg hc]
      have hlt : (batch ++ [r]).length < B := Nat.lt_of_not_le hc
      have he : (batch ++ [r]).length + rest.length
          = batch.length + (r :: rest).length := by
        simp only [List.length_append, List.length_cons, List.length_nil]
        omega
      have hrec := ih (batch ++ [r]) hlt (by rw [he]; exact hmod)
      rw [he] at hrec
      exact hrec

/-- C4: for every finite row source of length `L` and batch size `B > 0`,
`_batch_insert` passes each row to statement execution exactly once and in
original order, using exactly `⌈L / B⌉` executions, each prepared
statement sized exactly to the rows it binds; when `L mod B ≠ 0` the final
execution is sized exactly to the remainder. -/
theorem batch_insert_exact_cover (B : Nat) (hB : 0 < B) (rows : List α) :
    ((_batch_insert B rows).map Prod.snd).flatten = rows ∧
    (_batch_insert B rows).length = (rows.length + B - 1) / B ∧
    (∀ p ∈ _batch_insert B rows, p.1 = p.2.length) ∧
    (rows.length % B ≠ 0 →
      ((_batch_insert B rows).getLast?).map Prod.fst
        = some (rows.length % B)) := by
  refine ⟨?_, ?_, ?_, ?_⟩
  · simpa using batchLoop_flatten B rows [] (by simpa using hB)
  · simpa using batchLoop_length B rows [] (by simpa using hB)
  · exact batchLoop_sizes B rows []
  · intro hmod
    simpa using batchLoop_last B rows [] (by simpa using hB) (by simpa using hmod)

/-- Witness for `batch_insert_exact_cover`: seven rows at batch size
three give batches of 3, 3 and 1. -/
theorem batch_insert_exact_cover_witness :
    ((_batch_insert 3 [1, 2, 3, 4, 5, 6, 7]).map Prod.snd).flatten
      = [1, 2, 3, 4, 5, 6, 7] ∧
    (_batch_insert 3 [1, 2, 3, 4, 5, 6, 7]).length = 3 ∧
    ((_batch_insert 3 [1, 2, 3, 4, 5, 6, 7]).getLast?).map Prod.fst = some 1 := by
  have h := batch_insert_exact_cover 3 (by decide) [1, 2, 3, 4, 5, 6, 7]
  refine ⟨h.1, ?_, ?_⟩
  · rw [h.2.1]
    decide
  · have := h.2.2.2 (by decide)
    simpa using this

/-- `name` with `k` appended underscore characters, one at a time, as the
rename loop builds them. -/
def withUnderscores (name : Name) : Nat → Name
  | 0 => name
  | k + 1 => withUnderscores (name ++ "_") k

/-- The rename loop always leaves the set of already-used names. -/
theorem freshName_not_mem (used : List Name) (name : Name) :
    freshName used name ∉ used := by
  induction name using freshName.induct used with
  | case1 x hx ih =>
    rw [freshName, if_pos hx]
    exact ih
  | case2 x hx =>
    rw [freshName, if_neg hx]
    exact hx

/-- The chosen name is `name` extended by the least number of underscores
whose every shorter extension is already used. -/
theorem freshName_shape (used : List Name) (name : Name) :
    ∃ k, freshName used name = withUnderscores name k ∧
      ∀ j < k, withUnderscores name j ∈ used := by
  induction name using freshName.induct used with
  | case1 x hx ih =>
    obtain ⟨k, hk, hmin⟩ := ih
    refine ⟨k + 1, ?_, ?_⟩
    · rw [freshName, if_pos hx]
      exact hk
    · intro j hj
      cases j with
      | zero => exact hx
      | succ j2 =>
        show withUnderscores (x ++ "_") j2 ∈ used
        exact hmin j2 (by omega)
  | case2 x hx =>
    refine ⟨0, ?_, fun j hj => absurd hj (Nat.not_lt_zero j)⟩
    rw [freshName, if_neg hx]
    rfl

/-- A name colliding with nothing used so far is kept unchanged. -/
theorem freshName_eq_of_not_mem (used : List Name) (name : Name)
    (h : name ∉ used) : freshName used name = name := by
  rw [freshName, if_neg h]

/-- The rename loop preserves the length of the input. -/
theorem renameLoop_length (l : List Name) :
    ∀ used : List Name, (renameLoop used l).length = l.length := by
  induction l with
  | nil => intro used; rfl
  | cons a rest ih =>
    intro used
    simp only [renameLoop, List.length_cons, ih]

/-- Every chosen name avoids the initial used set, and the chosen names
are pairwise distinct. -/
theorem renameLoop_fresh (l : List Name) :
    ∀ used : List Name,
      (∀ a ∈ renameLoop used l, a ∉ used) ∧ (renameLoop used l).Nodup := by
  induction l with
  | nil => intro used; exact ⟨fun a ha => absurd ha (List.not_mem_nil a), List.nodup_nil⟩
  | cons hd tl ih =>
    intro used
    simp only [renameLoop]
    obtain ⟨hmem, hnd⟩ := ih (used ++ [freshName used hd])
    constructor
    · intro a ha
      rcases List.mem_cons.1 ha with rfl | ha2
      · exact freshName_not_mem used hd
      · intro hin
        exact hmem a ha2 (List.mem_append_left _ hin)
    · refine List.nodup_cons.2 ⟨?_, hnd⟩
      intro hin
      exact hmem _ hin (List.mem_append_right _ (List.mem_singleton.2 rfl))

/-- Positional characterization of the rename loop: the `i`-th output is
the freshened `i`-th input, freshened against the initial used set plus
the first `i` outputs. -/
theorem renameLoop_getq (l : List Name) :
    ∀ (used : List Name) (i : Nat) (a : Name), l[i]? = some a →
      (renameLoop used l)[i]?
        = some (freshName (used ++ (renameLoop used l).take i) a) := by
  induction l with
  | nil =>
    intro used i a ha
    simp at ha
  | cons hd tl ih =>
    intro used i a ha
    cases i with
    | zero =>
      simp only [List.getElem?_cons_zero, Option.some_inj] at ha
      subst ha
      simp [renameLoop]
    | succ i2 =>
      simp only [List.getElem?_cons_succ] at ha
      simp only [renameLoop, List.getElem?_cons_succ, List.take_succ_cons]
      rw [ih (used ++ [freshName used hd]) i2 a ha]
      rw [List.append_cons, List.append_assoc]
      simp

/-- C3 (amended): `_rename_duplicated_column_names` returns a sequence of
the same length with pairwise-distinct entries; the `i`-th output is the
`i`-th input extended by the least number of appended `'_'` characters
making it unique against the names already chosen (so an input name is
kept unchanged exactly when it collides with no earlier chosen name —
even an input that is unique in the original sequence is renamed when it
collides with an earlier renaming). -/
theorem rename_duplicated_characterization (column_names : List Name) :
    (_rename_duplicated_column_names column_names).length = column_names.length ∧
    (_rename_duplicated_column_names column_names).Nodup ∧
    (∀ (i : Nat) (a : Name), column_names[i]? = some a →
      ∃ b, (_rename_duplicated_column_names column_names)[i]? = some b ∧
        b = freshName ((_rename_duplicated_column_names column_names).take i) a ∧
        (a ∉ (_rename_duplicated_column_names column_names).take i → b = a) ∧
        (a ∈ (_rename_duplicated_column_names column_names).take i → b ≠ a) ∧
        ∃ k, b = withUnderscores a k ∧
          ∀ j < k, withUnderscores a j
            ∈ (_rename_duplicated_column_names column_names).take i) := by
  refine ⟨renameLoop_length column_names [], (renameLoop_fresh column_names []).2, ?_⟩
  intro i a ha
  have hq := renameLoop_getq column_names [] i a ha
  rw [List.nil_append] at hq
  refine ⟨freshName ((_rename_duplicated_column_names column_names).take i) a,
    hq, rfl, ?_, ?_, ?_⟩
  · intro hnot
    exact freshName_eq_of_not_mem _ _ hnot
  · intro hin heq
    exact freshName_not_mem _ a (heq ▸ hin)
  · exact freshName_shape _ a

/-- Witness for `rename_duplicated_characterization` on the input
`["x", "x"]`: the second occurrence collides and is renamed. -/
theorem rename_duplicated_characterization_witness :
    (_rename_duplicated_column_names ["x", "x"]).length = 2 ∧
    (_rename_duplicated_column_names ["x", "x"]).Nodup ∧
    ∃ b, (_rename_duplicated_column_names ["x", "x"])[1]? = some b ∧ b ≠ "x" := by
  have h := rename_duplicated_characterization ["x", "x"]
  obtain ⟨b, hb, _, _, hne, _⟩ := h.2.2 1 "x" (by rfl)
  refine ⟨h.1, h.2.1, b, hb, hne ?_⟩
  have hx : (_rename_duplicated_column_names ["x", "x"]).take 1 = ["x"] := by
    simp [_rename_duplicated_column_names, renameLoop, freshName]
  rw [hx]
  simp

/-- C3 counterexample: in `["x", "x", "x_"]` the name `"x_"` occurs only
once in the input (it is originally unique), yet it is renamed to
`"x__"` because the second `"x"` was already renamed to `"x_"`. -/
theorem rename_unique_renamed_counterexample :
    List.count "x_" ["x", "x", "x_"] = 1 ∧
    _rename_duplicated_column_names ["x", "x", "x_"] = ["x", "x_", "x__"] := by
  constructor
  · rfl
  · simp [_rename_duplicated_column_names, renameLoop, freshName]

/-- The filter keeping non-system schemas (line 327). -/
def nonSystem (p : Name × Tables) : Bool :=
  !(p.1 == "sys" || p.1 == "information_schema")

instance (β : Type _) : IsTotal (Name × β) (fun a b => a.1 ≤ b.1) :=
  ⟨fun a b => le_total a.1 b.1⟩

instance (β : Type _) : IsTrans (Name × β) (fun a b => a.1 ≤ b.1) :=
  ⟨fun _ _ _ h1 h2 => le_trans h1 h2⟩

/-- The key sequence produced by `sortKeys` is sorted. -/
theorem sortKeys_names_sorted (l : List (Name × β)) :
    List.Sorted (fun a b : Name => a ≤ b) ((sortKeys l).map Prod.fst) := by
  have h := List.sorted_insertionSort (fun a b : Name × β => a.1 ≤ b.1) l
  exact List.Pairwise.map Prod.fst (fun a b hab => hab) h

/-- The inner table loop emits exactly the per-table statement triples,
with holder indices counted up from its starting index. -/
theorem planTables_eq (schema_name : Name) (ts : Tables) :
    ∀ tid : Nat,
      planTables schema_name tid ts
        = (List.enumFrom tid (ts.map fun q => (schema_name, q.1, q.2))).flatMap
            (fun p => tableStmts p.1 p.2) := by
  induction ts with
  | nil => intro tid; rfl
  | cons t rest ih =>
    intro tid
    simp only [planTables, List.map_cons, List.enumFrom_cons, List.flatMap_cons]
    rw [ih (tid + 1)]
    rfl

/-- The outer schema loop, on an arbitrary (sorted) item list: the names
are the non-system keys, and the statements enumerate the non-system
(schema, table, columns) entries with consecutive holder indices. -/
theorem planSchemas_eq (l : Schemas) :
    ∀ tid : Nat,
      planSchemas tid l
        = ((l.filter nonSystem).map Prod.fst,
           (List.enumFrom tid ((l.filter nonSystem).flatMap
               (fun p => (sortKeys p.2).map fun q => (p.1, q.1, q.2)))).flatMap
             (fun p => tableStmts p.1 p.2)) := by
  induction l with
  | nil => intro tid; rfl
  | cons hd rest ih =>
    rcases hd with ⟨s, tables⟩
    intro tid
    by_cases hs : s = "sys" ∨ s = "information_schema"
    · have hns : ¬(nonSystem (s, tables) = true) := by
        simp [nonSystem]
        rcases hs with h | h
        · exact fun hne => absurd h hne
        · intro hne; exact h
      simp only [planSchemas, if_pos hs, List.filter_cons_of_neg hns]
      exact ih tid
    · have hns : nonSystem (s, tables) = true := by
        simp [nonSystem]
        constructor
        · intro h; exact hs (Or.inl h)
        · intro h; exact hs (Or.inr h)
      simp only [planSchemas, if_neg hs, List.filter_cons_of_pos hns]
      rw [ih (tid + (sortKeys tables).length)]
      simp only [List.map_cons, List.flatMap_cons, List.enumFrom_append,
        List.flatMap_append, List.length_map]
      rw [planTables_eq]

/-- C6: statement planning excludes the schemas `sys` and
`information_schema`, enumerates the remaining schemas in sorted name
order and the tables of each schema in sorted name order, assigns
consecutive placeholder-table indices starting from 0, and emits for each
table a move of its placeholder into the schema, a rename to the real
table name, and an ALTER adding its columns with mapped types and
`not null` exactly when the column is not nullable. -/
theorem plan_statements_sorted_enumeration (login_user : Name) (schemas : Schemas) :
    planAll login_user schemas
      = (((sortKeys schemas).filter nonSystem).map Prod.fst,
         accessStmts login_user ++
           (List.enumFrom 0 (mirrorEntries schemas)).flatMap
             (fun p => tableStmts p.1 p.2)) ∧
    List.Sorted (fun a b : Name => a ≤ b) (planAll login_user schemas).1 ∧
    (∀ p ∈ sortKeys schemas,
      List.Sorted (fun a b : Name => a ≤ b) ((sortKeys p.2).map Prod.fst)) ∧
    "sys" ∉ (planAll login_user schemas).1 ∧
    "information_schema" ∉ (planAll login_user schemas).1 := by
  have hmain : planAll login_user schemas
      = (((sortKeys schemas).filter nonSystem).map Prod.fst,
         accessStmts login_user ++
           (List.enumFrom 0 (mirrorEntries schemas)).flatMap
             (fun p => tableStmts p.1 p.2)) := by
    unfold planAll mirrorEntries
    rw [planSchemas_eq]
    rfl
  have hnames : (planAll login_user schemas).1
      = ((sortKeys schemas).filter nonSystem).map Prod.fst := by
    rw [hmain]
  refine ⟨hmain, ?_, ?_, ?_, ?_⟩
  · rw [hnames]
    have h := List.sorted_insertionSort
      (fun a b : Name × Tables => a.1 ≤ b.1) schemas
    have h2 : List.Pairwise (fun a b : Name × Tables => a.1 ≤ b.1)
        ((sortKeys schemas).filter nonSystem) :=
      List.Pairwise.sublist (List.filter_sublist _) h
    exact List.Pairwise.map Prod.fst (fun a b hab => hab) h2
  · intro p _
    exact sortKeys_names_sorted p.2
  · rw [hnames]
    intro hmem
    rcases List.mem_map.1 hmem with ⟨q, hq, hq2⟩
    have := List.of_mem_filter hq
    rw [nonSystem, hq2] at this
    simp at this
  · rw [hnames]
    intro hmem
    rcases List.mem_map.1 hmem with ⟨q, hq, hq2⟩
    have := List.of_mem_filter hq
    rw [nonSystem, hq2] at this
    simp at this

/-- Witness for `plan_statements_sorted_enumeration` on a concrete
one-schema, one-table catalog. -/
theorem plan_statements_sorted_enumeration_witness :
    planAll "lu" [("a", [("t", [⟨"c", "double", true⟩])])]
      = (["a"],
         [Stmt.createRoleIfAbsent "lu", Stmt.grantSelectAll "lu",
          Stmt.setSchemaHolder 0 "a", Stmt.renameHolder "a" 0 "t",
          Stmt.alterAddColumns "a" "t" [("c", "double precision", false)]]) ∧
    "sys" ∉ (planAll "lu" [("a", [("t", [⟨"c", "double", true⟩])])]).1 := by
  have h := plan_statements_sorted_enumeration "lu"
    [("a", [("t", [⟨"c", "double", true⟩])])]
  refine ⟨?_, h.2.2.2.1⟩
  rw [h.1]
  rfl

/-- The grouped-schema component of the discovery fold does not depend on
the diagnostics accumulated so far. -/
theorem buildFold_fst (rows : List DiscRow) :
    ∀ (s : Schemas) (d d' : List Diag),
      (List.foldl buildStep (s, d) rows).1
        = (List.foldl buildStep (s, d') rows).1 := by
  induction rows with
  | nil => intro s d d'; rfl
  | cons r rest ih =>
    intro s d d'
    simp only [List.foldl_cons]
    have hstep : (buildStep (s, d) r).1 = (buildStep (s, d') r).1 := by
      unfold buildStep
      by_cases h1 : PG_NAMEDATALEN - 1 < r.table_schema.length
      · simp [h1]
      · by_cases h2 : PG_NAMEDATALEN - 1 < r.table_name.length
        · simp [h1, h2]
        · by_cases h3 : PG_NAMEDATALEN - 1 < r.column_name.length
          · simp [h1, h2, h3]
          · simp [h1, h2, h3]
    calc (List.foldl buildStep (buildStep (s, d) r) rest).1
        = (List.foldl buildStep
            ((buildStep (s, d) r).1, (buildStep (s, d) r).2) rest).1 := rfl
      _ = (List.foldl buildStep
            ((buildStep (s, d') r).1, (buildStep (s, d) r).2) rest).1 := by
            rw [hstep]
      _ = (List.foldl buildStep
            ((buildStep (s, d') r).1, (buildStep (s, d') r).2) rest).1 :=
            ih _ _ _
      _ = (List.foldl buildStep (buildStep (s, d') r) rest).1 := rfl

/-- Session-catalog trace used by the concrete mirroring scenarios:
the list of (holder id, schema name) renames that succeeded. -/
abbrev CatTrace := List (Nat × Name)

/-- Oracles for the silent-rename scenario: discovery finds the single
schema `a`, but renaming a schema holder to `a` fails; every other
operation succeeds and successful renames are recorded in the trace. -/
def c5ops : Ops CatTrace Unit where
  discover := .ok (some [⟨"a", "t", "c", true, "int"⟩])
  dropStaleSchemas := fun s => .ok s
  renameSchemaHolder := fun s hid n =>
    if n = "a" then .error () else .ok (s ++ [(hid, n)])
  execStmt := fun s _ => .ok s
  dropCatalogSchema := fun s => .ok s
  dropSchemaHolders := fun s => .ok s
  updatePgDatabase := fun s _ => .ok s
  setRole := fun s _ => .ok s
  runQuery := fun _ _ => .ok ⟨["cn"], ["int"], []⟩

/-- C5 (amended): a discovered schema, table or column name exceeding the
identifier limit is skipped with a diagnostic and discovery continues
unaffected; a failed rename of an individual placeholder schema is
recovered silently — without any diagnostic — and the loop continues with
the same holder id; discovery failure aborts the call immediately with the
collaborator's exception carried unchanged, and any failure inside the
nested scope is propagated to the caller verbatim. -/
theorem error_handling_amended :
    (∀ (schemas : Schemas) (diags : List Diag) (row : DiscRow),
      PG_NAMEDATALEN - 1 < row.table_schema.length →
      buildStep (schemas, diags) row
        = (schemas, diags ++ [Diag.schemaTooLong row.table_schema])) ∧
    (∀ (schemas : Schemas) (diags : List Diag) (row : DiscRow),
      row.table_schema.length ≤ PG_NAMEDATALEN - 1 →
      PG_NAMEDATALEN - 1 < row.table_name.length →
      buildStep (schemas, diags) row
        = (ensureKey row.table_schema [] schemas,
           diags ++ [Diag.tableTooLong row.table_schema row.table_name])) ∧
    (∀ (schemas : Schemas) (diags : List Diag) (row : DiscRow),
      row.table_schema.length ≤ PG_NAMEDATALEN - 1 →
      row.table_name.length ≤ PG_NAMEDATALEN - 1 →
      PG_NAMEDATALEN - 1 < row.column_name.length →
      buildStep (schemas, diags) row
        = (updateKey row.table_schema (ensureKey row.table_name [])
             (ensureKey row.table_schema [] schemas),
           diags ++ [Diag.columnTooLong row.table_schema row.table_name
             row.column_name])) ∧
    (∀ (rows : List DiscRow) (s : Schemas) (d : List Diag) (row : DiscRow),
      PG_NAMEDATALEN - 1 < row.table_schema.length →
      (List.foldl buildStep (buildStep (s, d) row) rows).1
        = (List.foldl buildStep (s, d) rows).1) ∧
    (∀ {σ ε : Type} (ops : Ops σ ε) (e : ε) (n : Name) (rest : List Name)
      (hid : Nat) (s : σ),
      ops.renameSchemaHolder s hid n = .error e →
      renameHolders ops (n :: rest) hid s = renameHolders ops rest hid s) ∧
    (∀ {σ ε : Type} (ops : Ops σ ε) (st : SchemaCache) (now : Nat)
      (server user catalog schema login_user : Name) (query : String)
      (cat : σ) (e : ε),
      st.is_cached server user catalog schema now = false →
      ops.discover = .error e →
      (run_system_catalog_as_temp_table ops st now server user catalog schema
        login_user query cat).result = .error (.oracle e) ∧
      (run_system_catalog_as_temp_table ops st now server user catalog schema
        login_user query cat).cache = st ∧
      (run_system_catalog_as_temp_table ops st now server user catalog schema
        login_user query cat).cat = cat) ∧
    (∀ {σ ε : Type} (ops : Ops σ ε) (stBase : SchemaCache) (sharedQC : Bool)
      (qc : List (String × QueryResult)) (schema_names : List Name)
      (stmts : List Stmt) (lastSchemaName : Option Name) (login_user : Name)
      (query : String) (diags : List Diag) (cat : σ),
      qc.lookup query = none →
      (runStep2 ops stBase sharedQC qc schema_names stmts lastSchemaName
          login_user query diags cat).result
        = (innerBlock ops schema_names stmts lastSchemaName login_user
            query cat).2) := by
  refine ⟨?_, ?_, ?_, ?_, ?_, ?_, ?_⟩
  · intro schemas diags row h1
    unfold buildStep
    dsimp only
    rw [if_pos h1]
  · intro schemas diags row h1 h2
    unfold buildStep
    dsimp only
    rw [if_neg (Nat.not_lt.2 h1)]
    rw [if_pos h2]
  · intro schemas diags row h1 h2 h3
    unfold buildStep
    dsimp only
    rw [if_neg (Nat.not_lt.2 h1)]
    rw [if_neg (Nat.not_lt.2 h2)]
    rw [if_pos h3]
  · intro rows s d row h1
    have ha : buildStep (s, d) row
        = (s, d ++ [Diag.schemaTooLong row.table_schema]) := by
      unfold buildStep
      dsimp only
      rw [if_pos h1]
    rw [ha]
    exact buildFold_fst rows s _ d
  · intro σ ε ops e n rest hid s h
    show (match ops.renameSchemaHolder s hid n with
      | .ok s2 => renameHolders ops rest (hid + 1) s2
      | .error _ => renameHolders ops rest hid s) = renameHolders ops rest hid s
    rw [h]
  · intro σ ε ops st now server user catalog schema login_user query cat e
      hic hdis
    unfold run_system_catalog_as_temp_table
    rw [if_neg (by simp [hic]), hdis]
    exact ⟨rfl, rfl, rfl⟩
  · intro σ ε ops stBase sharedQC qc schema_names stmts lastSchemaName
      login_user query diags cat hlook
    unfold runStep2
    rw [hlook]
    dsimp only
    cases (innerBlock ops schema_names stmts lastSchemaName login_user
        query cat).2 with
    | ok qr => rfl
    | error e => rfl

/-- Witness for `error_handling_amended`: a 64-character schema name is
skipped with a diagnostic; a failing holder rename is skipped and the
loop continues; a query-cache miss propagates the inner outcome. -/
theorem error_handling_amended_witness :
    buildStep ([], [])
        ⟨"aaaaaaaaaaaaaaaaaaaaaaaaaaaaaaaaaaaaaaaaaaaaaaaaaaaaaaaaaaaaaaaa",
         "t", "c", true, "int"⟩
      = ([], [Diag.schemaTooLong
          "aaaaaaaaaaaaaaaaaaaaaaaaaaaaaaaaaaaaaaaaaaaaaaaaaaaaaaaaaaaaaaaa"]) ∧
    renameHolders c5ops ["a", "b"] 0 [] = renameHolders c5ops ["b"] 0 [] ∧
    (runStep2 c5ops ({} : SchemaCache) false [] ["a"] [] none "lu" "q" []
        ([] : CatTrace)).result
      = (innerBlock c5ops ["a"] [] none "lu" "q" ([] : CatTrace)).2 := by
  have h := error_handling_amended
  refine ⟨h.1 [] [] _ (by decide), ?_, ?_⟩
  · exact h.2.2.2.2.1 c5ops () "a" ["b"] 0 [] rfl
  · exact h.2.2.2.2.2.2 c5ops {} false [] ["a"] [] none "lu" "q" [] [] rfl

/-- C5 counterexample: with oracles on which the rename of the placeholder
schema to `a` fails, the call recovers and succeeds, reuses the holder id
for the next schema, and emits no diagnostic at all — contradicting the
claim that the recovery comes with a diagnostic. -/
theorem silent_schema_rename_recovery :
    renameHolders c5ops ["a", "b"] 0 [] = [(0, "b")] ∧
    (run_system_catalog_as_temp_table c5ops {} 0 "srv" "u" "c" "s" "lu" "q"
        ([] : CatTrace)).result = .ok ⟨["cn"], ["int"], []⟩ ∧
    (run_system_catalog_as_temp_table c5ops {} 0 "srv" "u" "c" "s" "lu" "q"
        ([] : CatTrace)).diags = [] :=
  ⟨rfl, rfl, rfl⟩

/-- Oracles on which every operation succeeds and each successful schema
rename is recorded in the catalog trace. -/
def c1ops : Ops CatTrace Unit where
  discover := .ok (some [⟨"a", "t", "c", true, "int"⟩])
  dropStaleSchemas := fun s => .ok s
  renameSchemaHolder := fun s hid n => .ok (s ++ [(hid, n)])
  execStmt := fun s _ => .ok s
  dropCatalogSchema := fun s => .ok s
  dropSchemaHolders := fun s => .ok s
  updatePgDatabase := fun s _ => .ok s
  setRole := fun s _ => .ok s
  runQuery := fun _ _ => .ok ⟨["cn"], ["int"], []⟩

/-- Witness for `rollback_invariant`: a call that mirrors the discovered
schema `a` (the rename would append to the trace) still returns the trace
it started from. -/
theorem rollback_invariant_witness :
    (run_system_catalog_as_temp_table c1ops {} 0 "srv" "u" "c" "s" "lu" "q"
        ([(7, "z")] : CatTrace)).cat = [(7, "z")] :=
  rollback_invariant c1ops {} 0 "srv" "u" "c" "s" "lu" "q" [(7, "z")] rfl

/-- Witness for `schema_cache_validity`: a freshly populated cache is
valid 10 seconds later, invalid once the 60-second TTL has elapsed, and a
cache-miss call stamps `now + 60`. -/
theorem schema_cache_validity_witness :
    (SchemaCache.set_cache {} "srv" "u" "c" "s" ["a"] [] 60).is_cached
        "srv" "u" "c" "s" 10 = true ∧
    (SchemaCache.set_cache {} "srv" "u" "c" "s" ["a"] [] 60).is_cached
        "srv" "u" "c" "s" 60 = false ∧
    (run_system_catalog_as_temp_table c1ops {} 5 "srv" "u" "c" "s" "lu" "q"
        ([] : CatTrace)).cache.expire_time = some 65 := by
  have h := schema_cache_validity
  refine ⟨?_, ?_, ?_⟩
  · exact (h.1 _ "srv" "u" "c" "s" 10
      (fun hc => by simp [SchemaCache.set_cache] at hc)).2
      ⟨rfl, rfl, rfl, rfl, 60, rfl, by decide⟩
  · exact h.2.1 _ "srv" "u" "c" "s" 60 60 rfl (le_refl 60)
  · exact h.2.2.2 c1ops {} 5 "srv" "u" "c" "s" "lu" "q" []
      (some [⟨"a", "t", "c", true, "int"⟩]) rfl rfl

/-- Oracles for the two-call query-cache scenario: discovery finds one
schema and the caller's query returns one row. -/
def c2ops : Ops Unit Unit where
  discover := .ok (some [⟨"a", "t", "c", true, "varchar"⟩])
  dropStaleSchemas := fun s => .ok s
  renameSchemaHolder := fun s _ _ => .ok s
  execStmt := fun s _ => .ok s
  dropCatalogSchema := fun s => .ok s
  dropSchemaHolders := fun s => .ok s
  updatePgDatabase := fun s _ => .ok s
  setRole := fun s _ => .ok s
  runQuery := fun _ _ => .ok ⟨["idcol"], ["int"], [["1"]]⟩

/-- First call: cold cache at time 0. -/
def c2out1 : RunOut Unit Unit :=
  run_system_catalog_as_temp_table c2ops {} 0 "srv" "u" "c" "s" "lu" "q" ()

/-- Second call: same key and query text, 10 seconds later. -/
def c2out2 : RunOut Unit Unit :=
  run_system_catalog_as_temp_table c2ops c2out1.cache 10 "srv" "u" "c" "s"
    "lu" "q" ()

/-- C2 fails on the code: after `set_cache` the local `query_cache`
variable is rebound to a fresh dict (line 357), so the store at line 422
lands in a dict that is discarded when the first call returns.  The
first call succeeds but leaves the nested query cache empty, and the
second call within the TTL — a schema-cache hit with the same query text —
misses the query cache and re-runs the transactional mirroring. -/
theorem query_cache_store_discarded :
    c2out1.result = .ok ⟨["idcol"], ["int"], [["1"]]⟩ ∧
    c2out1.cache.query_cache = [] ∧
    c2out1.cache.is_cached "srv" "u" "c" "s" 10 = true ∧
    c2out2.mirroringRan = true :=
  ⟨rfl, rfl, rfl, rfl⟩

/-- Oracles for the empty-discovery scenario: the remote catalog reports
zero rows and everything else succeeds. -/
def c9ops : Ops Unit Unit where
  discover := .ok (some [])
  dropStaleSchemas := fun s => .ok s
  renameSchemaHolder := fun s _ _ => .ok s
  execStmt := fun s _ => .ok s
  dropCatalogSchema := fun s => .ok s
  dropSchemaHolders := fun s => .ok s
  updatePgDatabase := fun s _ => .ok s
  setRole := fun s _ => .ok s
  runQuery := fun _ _ => .ok ⟨[], [], []⟩

/-- The empty-discovery call. -/
def c9out : RunOut Unit Unit :=
  run_system_catalog_as_temp_table c9ops {} 0 "srv" "u" "c" "s" "lu" "q" ()

/-- C9 fails on the code: zero discovery rows do produce an empty schema
set and no mirroring statements beyond the role/grant prelude, but the
call then aborts inside the nested scope, because the Python local
`schema_name` is never bound by any loop and line 405
(`update pg_database ... datname=schema_name`) raises `NameError` instead
of completing. -/
theorem empty_discovery_crash :
    buildSchemas [] = ([], []) ∧
    planAll "lu" [] = ([], accessStmts "lu") ∧
    c9out.mirroringRan = true ∧
    c9out.result = .error .unboundSchemaName :=
  ⟨rfl, rfl, rfl, rfl⟩

end Prestogres
